import Mathlib

/-!
# Shallow embedding of the Berkelium `DataFrame` core

This file embeds the `DataFrame` class of
`src/libs/berkelium/src/lib/modules/dataframe.ts` (the main variant: the one
with `columns` / `index` / `shape` getters, the statistics engine and the
row-transform methods) and proves or refutes the specification claims about
it.

Modelling conventions:
* A JS cell value is one of number / string / boolean / undefined / object;
  numbers are modelled as exact rationals (`ℚ`) — numeric precision beyond
  doubles is explicitly out of the spec's scope.  A nested object is
  modelled by its list of own keys (all the embedded operations ever inspect
  of an object is whether it has keys).
* A row is an insertion-ordered association list from column name to cell;
  reading a missing key yields JS `undefined`, i.e. `Cell.undef`.
* A `DataFrame`'s `data` field is the list of its rows.  Operations that
  depend on object identity (reference equality) act on rows tagged with an
  object id (`ORow`); all other operations act on plain rows.
* A JS computation whose result is `NaN` (or `±Infinity`) is modelled as
  `none` of an `Option`; a thrown `Error` is modelled via `Except String`.
-/

namespace Berkelium

/-- The `typeof` tags that occur in the embedded code
(`DataType = 'number' | 'string' | 'boolean' | 'object' | 'undefined'`). -/
inductive DType where
  | number
  | string
  | boolean
  | object
  | undefined
  deriving DecidableEq, Repr

/-- A JS cell value as stored in a DataFrame row.  `undef` is the absent
marker (JS `undefined`); `struct` is a nested object, recorded by its list
of own keys. -/
inductive Cell where
  | num (q : ℚ)
  | str (s : String)
  | bool (b : Bool)
  | undef
  | struct (keys : List String)
  deriving DecidableEq, Repr

/-- JS `typeof` on a cell value. -/
def typeofCell : Cell → DType
  | .num _ => .number
  | .str _ => .string
  | .bool _ => .boolean
  | .undef => .undefined
  | .struct _ => .object

/-- `true` iff the cell is a JS number (`typeof val === 'number'`). -/
def Cell.isNum : Cell → Bool
  | .num _ => true
  | _ => false

/-- The numeric payload of a number cell. -/
def cellNum : Cell → Option ℚ
  | .num q => some q
  | _ => none

/-- A row object: insertion-ordered association list of column name to
cell value. -/
abbrev Row := List (String × Cell)

/-- Reading `row[c]` / `row.get(c)`: the stored value, or JS `undefined`
when the key is missing. -/
def getCell (r : Row) (c : String) : Cell :=
  (r.lookup c).getD Cell.undef

/-- Writing `row[c] = v` / `row.set(c, v)`: overwrite the value in place if
the key exists, otherwise append the new key at the end. -/
def setCell (r : Row) (c : String) (v : Cell) : Row :=
  if r.lookup c = none then r ++ [(c, v)]
  else r.map (fun p => if p.1 = c then (c, v) else p)

/-- The `data` field of the embedded DataFrame: its list of rows. -/
abbrev DataFrame := List Row

/-- `get columns()`: `Object.keys(this.data[0])`, or `[]` when there are no
rows. -/
def dfColumns (df : DataFrame) : List String :=
  match df with
  | [] => []
  | r :: _ => r.map Prod.fst

/-- `get index()`: `Array.from({length: n}, (_, i) => i)` — always the
positional labels `0 .. n-1` of the current data. -/
def dfIndex (df : DataFrame) : List ℕ :=
  List.range df.length

/-- `array(col)`: the column's values in row order
(`this.data.map((row) => row.get(col))`). -/
def dfArray (df : DataFrame) (c : String) : List Cell :=
  df.map (fun r => getCell r c)

section CellLemmas

theorem lookup_cons_key (c k : String) (v : Cell) (r : Row) :
    List.lookup c ((k, v) :: r) = if c = k then some v else List.lookup c r := by
  by_cases h : c = k
  · simp [List.lookup, h]
  · have hb : (c == k) = false := beq_false_of_ne h
    simp [List.lookup, hb, h]

theorem lookup_map_set_ne (r : Row) (c c' : String) (v : Cell) (h : c' ≠ c) :
    List.lookup c' (r.map (fun p => if p.1 = c then (c, v) else p)) =
      List.lookup c' r := by
  induction r with
  | nil => rfl
  | cons p r ih =>
    obtain ⟨k, w⟩ := p
    by_cases hp : k = c
    · subst hp
      have hhead : (if ((k, w) : String × Cell).1 = k then (k, v) else (k, w))
          = (k, v) := by simp
      rw [List.map_cons, hhead, lookup_cons_key, lookup_cons_key,
        if_neg h, if_neg h, ih]
    · have hhead : (if ((k, w) : String × Cell).1 = c then (c, v) else (k, w))
          = (k, w) := by simp [hp]
      rw [List.map_cons, hhead, lookup_cons_key, lookup_cons_key, ih]

theorem lookup_map_set_found (r : Row) (c : String) (v : Cell)
    (h : r.lookup c ≠ none) :
    List.lookup c (r.map (fun p => if p.1 = c then (c, v) else p)) = some v := by
  induction r with
  | nil => simp at h
  | cons p r ih =>
    obtain ⟨k, w⟩ := p
    by_cases hp : k = c
    · subst hp
      have hhead : (if ((k, w) : String × Cell).1 = k then (k, v) else (k, w))
          = (k, v) := by simp
      rw [List.map_cons, hhead, lookup_cons_key, if_pos rfl]
    · have hhead : (if ((k, w) : String × Cell).1 = c then (c, v) else (k, w))
          = (k, w) := by simp [hp]
      rw [lookup_cons_key, if_neg (fun e => hp e.symm)] at h
      rw [List.map_cons, hhead, lookup_cons_key, if_neg (fun e => hp e.symm)]
      exact ih h

theorem getCell_setCell_same (r : Row) (c : String) (v : Cell) :
    getCell (setCell r c v) c = v := by
  unfold setCell
  split
  · unfold getCell
    rename_i hnone
    rw [List.lookup_append, hnone]
    simp [lookup_cons_key]
  · unfold getCell
    rename_i hsome
    rw [lookup_map_set_found r c v hsome]
    rfl

theorem getCell_setCell_ne (r : Row) (c c' : String) (v : Cell)
    (h : c' ≠ c) : getCell (setCell r c v) c' = getCell r c' := by
  unfold setCell
  split
  · unfold getCell
    rw [List.lookup_append]
    cases hl : r.lookup c' <;> simp [hl, lookup_cons_key, h]
  · unfold getCell
    rw [lookup_map_set_ne r c c' v h]

end CellLemmas

/-! ## Statistics engine -/

/-- The numeric subsequence of a column:
`this.data.map((row) => row.get(column)).filter((v) => typeof v === 'number')`. -/
def numSeq (df : DataFrame) (c : String) : List ℚ :=
  (df.map (fun r => getCell r c)).filterMap cellNum

/-- `mean(column)`: the sum of the numeric subsequence divided by its
length, with no emptiness guard — an empty subsequence gives JS
`0/0 = NaN`, modelled as `none`. -/
def mean (df : DataFrame) (c : String) : Option ℚ :=
  let values := numSeq df c
  if values.isEmpty then none
  else some (values.sum / values.length)

/-- Reading `values[i]` on a JS array: `undefined` outside the range.  Any
arithmetic on such a read yields `NaN`, which the callers model as
`none`. -/
def jsGetElem (l : List ℚ) (i : ℤ) : Option ℚ :=
  if i < 0 then none else l[i.toNat]?

/-- `getPercentile(p, values)`:
`index = p * (values.length - 1)`, `lower = floor(index)`,
`upper = ceil(index)`,
`values[lower] + (values[upper] - values[lower]) * (index - lower)`.
An out-of-range read (possible only for an empty `values`) poisons the
expression with `NaN` (`none`). -/
def getPercentile (p : ℚ) (values : List ℚ) : Option ℚ :=
  let index : ℚ := p * ((values.length : ℚ) - 1)
  let lower : ℤ := ⌊index⌋
  let upper : ℤ := ⌈index⌉
  match jsGetElem values lower, jsGetElem values upper with
  | some vl, some vu => some (vl + (vu - vl) * (index - (lower : ℚ)))
  | _, _ => none

/-- The body of `quartiles` after the column extraction: sort the numeric
values ascending with the comparator `(a, b) => a - b` and read the three
percentiles off the sorted array. -/
def quartilesOf (values0 : List ℚ) : Option ℚ × Option ℚ × Option ℚ :=
  let values := List.insertionSort (· ≤ ·) values0
  (getPercentile (1/4) values, getPercentile (1/2) values,
    getPercentile (3/4) values)

/-- `quartiles(column)`: extracts the numeric subsequence of the column,
sorts it and interpolates the 25th/50th/75th percentiles. -/
def quartiles (df : DataFrame) (c : String) :
    Option ℚ × Option ℚ × Option ℚ :=
  quartilesOf (numSeq df c)

/-- The radicand of `std(column)`: `Σ (v − mean)² / n` over the numeric
subsequence (population divisor `n`). -/
def stdRadicand (df : DataFrame) (c : String) : Option ℚ :=
  match mean df c with
  | none => none
  | some m =>
    let values := numSeq df c
    some (((values.map (fun v => (v - m) ^ 2)).sum) / values.length)

/-- `std(column)`: `Math.sqrt` of the population variance of the numeric
subsequence.  `Math.sqrt` is the one operation of the embedded code with no
rational counterpart, hence the excursion through `ℝ`. -/
noncomputable def std (df : DataFrame) (c : String) : Option ℝ :=
  match stdRadicand df c with
  | none => none
  | some q => some (Real.sqrt ((q : ℚ) : ℝ))

/-- JS `ToNumber` coercion, as exercised by `calculateVariance`, whose sum
runs over **all** cells of `array(column)` (the source does not filter that
list to numbers).  `none` stands for `NaN`.  The number, boolean, undefined
and empty-string coercions follow JS exactly; numeric parsing of non-empty
strings and object-to-primitive coercion are not modelled — every claim
that evaluates this definition assumes an all-numeric column, where only
the `num` case is exercised. -/
def jsToNumber : Cell → Option ℚ
  | .num q => some q
  | .bool b => some (if b then 1 else 0)
  | .undef => none
  | .str s => if s = "" then some 0 else none
  | .struct _ => none

/-- `reduce((sum, val) => sum + Math.pow(val - mean, 2), 0)` over the raw
cells, with JS `NaN` propagation: a cell that does not coerce to a number
poisons the whole sum. -/
def nanSumSq (cells : List Cell) (m : ℚ) : Option ℚ :=
  cells.foldl (fun acc val =>
    match acc, jsToNumber val with
    | some s, some q => some (s + (q - m) ^ 2)
    | _, _ => none) (some 0)

/-- `calculateVariance(column)`: sums `(val - mean) ** 2` over **all**
cells of `array(column)` (the source does not filter that list to
numbers) and divides by `array(column).length - 1` — the full column
length, the sample divisor.  A non-coercible cell makes the sum `NaN`;
with a single row the division is `0/0 = NaN`; both are modelled
`none`. -/
def calculateVariance (df : DataFrame) (c : String) : Option ℚ :=
  let numericColumn := dfArray df c
  match mean df c with
  | none => none
  | some m =>
    match nanSumSq numericColumn m with
    | none => none
    | some s =>
      if numericColumn.length ≤ 1 then none
      else some (s / ((numericColumn.length : ℚ) - 1))

/-- `var()`: every column for which some row holds a number, paired with
its `calculateVariance`. -/
def varList (df : DataFrame) : List (String × Option ℚ) :=
  ((dfColumns df).filter
    (fun col => df.any (fun row => Cell.isNum (getCell row col)))).map
    (fun col => (col, calculateVariance df col))

/-- `isNotEmpty(value)`: `false` for `null`/`undefined` (both `undef`
here), for `false`, for the empty string, for `NaN` (a non-finite number,
which the `ℚ` model does not represent), and for an object or array
without keys; `true` otherwise — in particular for the number `0`. -/
def isNotEmpty (value : Cell) : Bool :=
  if value = Cell.undef ∨ value = Cell.bool false ∨ value = Cell.str "" then
    false
  else
    match value with
    | Cell.struct keys => !keys.isEmpty
    | _ => true

/-- `count(column)`: the number of rows whose cell passes `isNotEmpty`. -/
def count (df : DataFrame) (c : String) : ℕ :=
  (df.filter (fun row => isNotEmpty (getCell row c))).length

/-! ## Row/column transforms -/

/-- `filter(predicate)`: `this.data.filter(predicate)` wrapped in a new
DataFrame. -/
def dfFilter (p : Row → Bool) (df : DataFrame) : DataFrame :=
  df.filter p

/-- JS `Array.prototype.slice(start)` with one integer argument: a negative
start counts from the end, clamped at `0`.  JS has no negative zero integer
distinct from `0` here: `slice(-0)` is `slice(0)`. -/
def jsSliceFrom (l : List Row) (start : ℤ) : List Row :=
  if start < 0 then l.drop ((l.length + start).toNat) else l.drop start.toNat

/-- `tail(n)`: `this.data.slice(-n)`. -/
def tail (df : DataFrame) (n : ℕ) : DataFrame :=
  jsSliceFrom df (-(n : ℤ))

/-- JS truthiness as tested by `!row.get(column)` in `transform`:
`undefined`, `0`, `false` and the empty string are falsy; every object is
truthy (`NaN`, also falsy, is not representable in the `ℚ` model). -/
def jsFalsy : Cell → Bool
  | .num q => q == 0
  | .str s => s == ""
  | .bool b => !b
  | .undef => true
  | .struct _ => false

/-- `transform(column, fn)`: throws when the column is absent from
`this.columns`; otherwise maps over the rows, returning a row unchanged
when its cell is falsy and writing `fn(cell)` into it otherwise. -/
def transform (df : DataFrame) (c : String) (fn : Cell → Cell) :
    Except String DataFrame :=
  if c ∉ dfColumns df then
    .error ("Column " ++ c ++ " does not exist in the DataFrame.")
  else
    .ok (df.map (fun row =>
      if jsFalsy (getCell row c) then row
      else setCell row c (fn (getCell row c))))

/-- `insert(column, dataArray)`: each row is assigned, in row order, the
value shifted off the front of `dataArray` (`shift()` of an exhausted array
is `undefined`).  So row `i` receives `dataArray[i]`, rows past the end of
`dataArray` receive `undefined`, spare values are dropped, and no length
check of any kind is performed. -/
def dfInsert (df : DataFrame) (c : String) (dataArray : List Cell) :
    DataFrame :=
  df.enum.map (fun p => setCell p.2 c (dataArray.getD p.1 Cell.undef))

/-- `update(column, dataArray)`: the method body is identical to
`insert`'s, value by value. -/
def dfUpdate (df : DataFrame) (c : String) (dataArray : List Cell) :
    DataFrame :=
  df.enum.map (fun p => setCell p.2 c (dataArray.getD p.1 Cell.undef))

/-! ## Dtype inference and `mode` -/

/-- `map.set(key, value)` on an insertion-ordered JS `Map`: overwrite in
place, or append a fresh key at the end. -/
def jsMapSet {α β : Type} [DecidableEq α] (m : List (α × β)) (k : α) (v : β) :
    List (α × β) :=
  if (m.lookup k).isNone then m ++ [(k, v)]
  else m.map (fun p => if p.1 = k then (k, v) else p)

/-- The loop state of `mostFrequentType`. -/
structure FreqState where
  freq : List (DType × ℕ)
  maxCount : ℕ
  best : Option DType

/-- One iteration of the `mostFrequentType` loop: skip `undefined` values,
bump the type's frequency, and take over the running maximum only when
strictly exceeded (ties keep the first-seen type). -/
def freqStep (st : FreqState) (item : Cell) : FreqState :=
  let value := typeofCell item
  if value = DType.undefined then st
  else
    let cnt := ((st.freq.lookup value).getD 0) + 1
    let freq' := jsMapSet st.freq value cnt
    if st.maxCount < cnt then ⟨freq', cnt, some value⟩
    else ⟨freq', st.maxCount, st.best⟩

/-- `mostFrequentType(arr)`: the most frequent `typeof` among the values,
`undefined` excluded; `none` when every value is undefined. -/
def mostFrequentType (arr : List Cell) : Option DType :=
  (arr.foldl freqStep ⟨[], 0, none⟩).best

/-- `getDataTypes()` / the `colDataTypes` field: every column mapped to the
most frequent `typeof` of its values. -/
def colDataTypes (df : DataFrame) : List (String × Option DType) :=
  (dfColumns df).map (fun col => (col, mostFrequentType (dfArray df col)))

/-- `get dTypes()`: the empty map for an empty DataFrame. -/
def dTypes (df : DataFrame) : List (String × Option DType) :=
  if df.isEmpty then [] else colDataTypes df

/-- `this.dTypes.get(column)`: JS `undefined` when the column is absent
from the map. -/
def dtypeGet (df : DataFrame) (c : String) : Option DType :=
  ((dTypes df).lookup c).getD none

/-- `acc.set(value, (acc.get(value) || 0) + 1)` over an insertion-ordered
`Map`, as in `calculateMode`'s reduce. -/
def bumpFreq (acc : List (Cell × ℕ)) (value : Cell) : List (Cell × ℕ) :=
  jsMapSet acc value (((acc.lookup value).getD 0) + 1)

/-- `Object.values` applied to a JS `Map`: a `Map` keeps its entries in
internal storage, not as own enumerable properties, so this is always the
empty array (this is the decisive JS fact for `calculateMode`). -/
def jsObjectValuesOfMap (_ : List (Cell × ℕ)) : List ℕ := []

/-- `Object.keys` applied to a JS `Map`: always the empty array, for the
same reason.  The source immediately coerces these (string) keys back to
numbers (`+key`, `.map(Number)`), so the — empty — key list is typed over
`ℚ` directly. -/
def jsObjectKeysOfMap (_ : List (Cell × ℕ)) : List ℚ := []

/-- JS `===` between `frequencyMap.get(+key)` (a count, or `undefined` for
a missing key) and `maxFrequency` (`Math.max()` of no arguments is
`-Infinity`, modelled `none`): true only for two equal numbers. -/
def jsStrictEqNum (a b : Option ℕ) : Bool :=
  match a, b with
  | some x, some y => x == y
  | _, _ => false

/-- `calculateMode(values)`: builds the frequency `Map`, takes
`maxFrequency = Math.max(...Object.values(frequencyMap))`, filters
`Object.keys(frequencyMap)` by that frequency, and returns `[]` when every
key tied (`modes.length === Object.keys(frequencyMap).length`). -/
def calculateMode (values : List Cell) : List ℚ :=
  let frequencyMap := values.foldl bumpFreq []
  let maxFrequency : Option ℕ := (jsObjectValuesOfMap frequencyMap).max?
  let modes : List ℚ := (jsObjectKeysOfMap frequencyMap).filter
    (fun key => jsStrictEqNum (frequencyMap.lookup (Cell.num key)) maxFrequency)
  if modes.length = (jsObjectKeysOfMap frequencyMap).length then [] else modes

/-- `mode(column)`: throws unless the column's dtype is `'number'`;
otherwise `undefined` for no modes, the mode itself for one, and
`Math.max(...modes)` for several. -/
def mode (df : DataFrame) (c : String) : Except String (Option ℚ) :=
  if dtypeGet df c ≠ some DType.number then
    .error ("Column " ++ c ++ " is not numeric")
  else
    match calculateMode (dfArray df c) with
    | [] => .ok none
    | [m] => .ok (some m)
    | m :: ms => .ok (some (ms.foldl max m))

/-! ## Row objects with identity (`dedup`, `copy`) -/

/-- A row object together with its identity: distinct allocated row objects
carry distinct ids, so equality of `ORow` values is JS reference equality
(`===`) between row objects. -/
abbrev ORow := ℕ × Row

/-- `Array.prototype.indexOf`: position of the first element strictly equal
(`===`) to the target.  A missing target yields the list's length here
(JS returns `-1`; `dedup` only ever compares the result against the index
of an element that is present, so the two conventions agree on every
comparison the source performs). -/
def jsIndexOf (l : List ORow) (target : ORow) : ℕ :=
  match l with
  | [] => 0
  | r :: rs => if r = target then 0 else jsIndexOf rs target + 1

/-- `dedup()`:
`this.data.filter((row, index) => this.data.indexOf(row) === index)`. -/
def dedup (d : List ORow) : List ORow :=
  (d.enum.filter (fun p => jsIndexOf d p.2 = p.1)).map Prod.snd

/-- The amended claim's reading of `dedup`, written from its words: walk
the rows in order and keep a row exactly when the same row **object** has
not been seen before. -/
def keepFirstByRef (seen : List ORow) : List ORow → List ORow
  | [] => []
  | r :: rs =>
    if r ∈ seen then keepFirstByRef seen rs
    else r :: keepFirstByRef (r :: seen) rs

/-- The object ids held by a DataFrame. -/
def ids (d : List ORow) : List ℕ := d.map Prod.fst

/-- An upper bound on the ids in use; `copy` allocates above it. -/
def maxId (d : List ORow) : ℕ := (ids d).foldr max 0

/-- `copy()`: `JSON.parse(JSON.stringify(this.data))` — freshly allocated
row objects (ids the source does not use) carrying, for this cell domain,
identical contents (numbers, strings, booleans and key lists survive the
JSON round trip; an `undefined` cell is dropped by `stringify` and reads
back as `undefined` again). -/
def copy (d : List ORow) : List ORow :=
  d.enum.map (fun p => (maxId d + 1 + p.1, p.2.2))

/-- The row contents of a DataFrame, identities forgotten. -/
def contents (d : List ORow) : List Row := d.map Prod.snd

/-- A single-cell write through a row-object reference: every DataFrame
holding the object with id `target` sees the new value.  This models
mutating a (possibly shared) row object in place. -/
def writeCell (target : ℕ) (c : String) (v : Cell) (d : List ORow) :
    List ORow :=
  d.map (fun r => if r.1 = target then (r.1, setCell r.2 c v) else r)

/-! ## Claim C1: `mode` -/

/-- **C1** (code bug).  The claim — like the method's own doc comment and
the repository test expecting `mode('Monthly Income') = 62000` — says
`mode` returns the strictly-most-frequent value of a numeric column (here
`1` for the column `[1, 1, 2]`).  The code instead always returns
`undefined`: `calculateMode` reads `Object.values` and `Object.keys` off a
JS `Map`, both of which are always empty, so `maxFrequency` is
`Math.max() = -Infinity` and the computed mode list is `[]` for every
input whatsoever. -/
theorem mode_always_returns_no_mode :
    mode [[("a", Cell.num 1)], [("a", Cell.num 1)], [("a", Cell.num 2)]] "a"
        = Except.ok none ∧
    ∀ values : List Cell, calculateMode values = [] := by
  constructor
  · rfl
  · intro values
    rfl

/-! ## Claim C4: `count` -/

/-- **C4 counterexample.**  A one-row DataFrame whose cells hold the
present-but-falsy values `false` and `''`.  The claim says `count` counts
them as present (`= 1`); `isNotEmpty` explicitly rejects `false` and the
empty string, so the code returns `0` for both columns. -/
theorem count_falsy_cells_not_counted :
    count [[("b", Cell.bool false), ("s", Cell.str "")]] "b" = 0 ∧
    count [[("b", Cell.bool false), ("s", Cell.str "")]] "b" ≠ 1 ∧
    count [[("b", Cell.bool false), ("s", Cell.str "")]] "s" = 0 ∧
    count [[("b", Cell.bool false), ("s", Cell.str "")]] "s" ≠ 1 := by
  decide

/-- The amended claim's notion of a counted cell, written from its words:
not absent, not `false`, not the empty string, not a keyless object —
while the number `0` *is* counted. -/
def presentCell : Cell → Bool
  | .num _ => true
  | .str s => decide (s ≠ "")
  | .bool b => b
  | .undef => false
  | .struct keys => decide (keys ≠ [])

theorem isNotEmpty_eq_presentCell (v : Cell) : isNotEmpty v = presentCell v := by
  cases v with
  | num q => rfl
  | str s =>
    by_cases hs : s = "" <;> simp [isNotEmpty, presentCell, hs]
  | bool b => cases b <;> rfl
  | undef => rfl
  | struct keys => cases keys <;> simp [isNotEmpty, presentCell]

/-- **C4 amended.**  `count(column)` equals the number of cells of the
column that are present in the code's sense (`isNotEmpty`): not the absent
marker, not `false`, not the empty string and not a keyless object; the
number `0` is counted as present. -/
theorem count_amended_spec (df : DataFrame) (c : String) :
    count df c
      = ((df.map (fun r => getCell r c)).filter presentCell).length := by
  unfold count
  rw [List.filter_map, List.length_map]
  congr 1
  apply List.filter_congr
  intro r _
  exact isNotEmpty_eq_presentCell (getCell r c)

/-! ## Claim C5: `filter` -/

/-- The concrete predicate of the C5 counterexample: keeps a row iff its
`"a"` cell is the number `2` (in the source this is a caller-supplied pure
predicate). -/
def pSecond : Row → Bool := fun r => getCell r "a" == Cell.num 2

/-- **C5 counterexample.**  Filtering a two-row DataFrame down to its
second row: the claim says the surviving row keeps its original label `1`,
but the `index` getter always recomputes `0 .. n-1` over the current data,
so the result's index is `[0]`. -/
theorem filter_index_renumbered :
    dfIndex (dfFilter pSecond [[("a", Cell.num 1)], [("a", Cell.num 2)]])
        = [0] ∧
    dfIndex (dfFilter pSecond [[("a", Cell.num 1)], [("a", Cell.num 2)]])
        ≠ [1] := by
  decide

/-- **C5 amended.**  `filter(predicate)` returns exactly the rows
satisfying the predicate, in their original relative order (a sublist of
the source containing every satisfying row), but the result's index labels
are renumbered `0 .. m-1` rather than preserved: the `index` getter is
always positional. -/
theorem filter_amended_spec (p : Row → Bool) (df : DataFrame) :
    List.Sublist (dfFilter p df) df ∧
    (∀ r ∈ dfFilter p df, p r = true) ∧
    (dfFilter p df).length = df.countP p ∧
    dfIndex (dfFilter p df) = List.range (dfFilter p df).length := by
  refine ⟨List.filter_sublist df, ?_, ?_, rfl⟩
  · intro r hr
    exact (List.mem_filter.mp hr).2
  · unfold dfFilter
    rw [List.countP_eq_length_filter]

theorem filter_amended_spec_witness :
    List.Sublist (dfFilter pSecond [[("a", Cell.num 1)], [("a", Cell.num 2)]])
        [[("a", Cell.num 1)], [("a", Cell.num 2)]] ∧
    pSecond [("a", Cell.num 2)] = true := by
  have h := filter_amended_spec pSecond [[("a", Cell.num 1)], [("a", Cell.num 2)]]
  exact ⟨h.1, h.2.1 [("a", Cell.num 2)] (by decide)⟩

/-! ## Claim C8: `insert` / `update` -/

/-- **C8 counterexample.**  The claim says `insert`/`update` fail with a
`LengthMismatch` error when the value list's length differs from the row
count.  Neither method performs any length check: with too few values the
remaining rows receive `undefined` (an exhausted `shift()`), and the call
returns an ordinary DataFrame. -/
theorem insert_update_no_length_check :
    dfInsert [[("a", Cell.num 1)]] "b" []
        = [[("a", Cell.num 1), ("b", Cell.undef)]] ∧
    dfUpdate [[("a", Cell.num 1)], [("a", Cell.num 2)]] "a" [Cell.num 9]
        = [[("a", Cell.num 9)], [("a", Cell.undef)]] := by
  decide

/-- **C8 amended.**  `insert` and `update` have identical bodies and never
signal a length mismatch: values are consumed left-to-right with the
`i`-th value going to row `i`, rows beyond the end of the value list
receive the absent value, spare values are ignored, the named column is
appended (when new) or overwritten (when present), and every other column
of every row is untouched. -/
theorem insert_update_amended_spec (df : DataFrame) (c : String)
    (vals : List Cell) :
    dfUpdate df c vals = dfInsert df c vals ∧
    (dfInsert df c vals).length = df.length ∧
    ∀ i row, df[i]? = some row →
      ∃ row', (dfInsert df c vals)[i]? = some row' ∧
        getCell row' c = vals.getD i Cell.undef ∧
        ∀ c', c' ≠ c → getCell row' c' = getCell row c' := by
  refine ⟨rfl, ?_, ?_⟩
  · simp [dfInsert]
  · intro i row hrow
    refine ⟨setCell row c (vals.getD i Cell.undef), ?_, ?_, ?_⟩
    · unfold dfInsert
      rw [List.getElem?_map, List.getElem?_enum, hrow]
      rfl
    · exact getCell_setCell_same row c (vals.getD i Cell.undef)
    · intro c' hc'
      exact getCell_setCell_ne row c c' (vals.getD i Cell.undef) hc'

theorem insert_update_amended_spec_witness :
    dfUpdate [[("a", Cell.num 1)]] "b" [] = dfInsert [[("a", Cell.num 1)]] "b" [] ∧
    ∃ row', (dfInsert [[("a", Cell.num 1)]] "b" [])[0]? = some row' ∧
      getCell row' "b" = ([] : List Cell).getD 0 Cell.undef ∧
      ∀ c', c' ≠ "b" → getCell row' c' = getCell [("a", Cell.num 1)] c' := by
  have h := insert_update_amended_spec [[("a", Cell.num 1)]] "b" []
  exact ⟨h.1, h.2.2 0 [("a", Cell.num 1)] rfl⟩

/-! ## Claim C9: `tail` -/

/-- **C9 confirmed.**  `tail(0)` is `slice(-0) = slice(0)`, i.e. every row
of the source in order — not an empty DataFrame; and for `0 < n ≤ rows`,
`tail(n)` is exactly the last `n` rows in their original order. -/
theorem tail_spec (df : DataFrame) (n : ℕ) :
    tail df 0 = df ∧
    (0 < n → n ≤ df.length → tail df n = df.drop (df.length - n)) := by
  constructor
  · simp [tail, jsSliceFrom]
  · intro h1 h2
    unfold tail jsSliceFrom
    rw [if_pos (by omega : -(n : ℤ) < 0)]
    congr 1
    omega

theorem tail_spec_witness :
    tail [[("a", Cell.num 1)], [("a", Cell.num 2)], [("a", Cell.num 3)]] 0
        = [[("a", Cell.num 1)], [("a", Cell.num 2)], [("a", Cell.num 3)]] ∧
    tail [[("a", Cell.num 1)], [("a", Cell.num 2)], [("a", Cell.num 3)]] 2
        = List.drop
            ([[("a", Cell.num 1)], [("a", Cell.num 2)], [("a", Cell.num 3)]].length - 2)
            [[("a", Cell.num 1)], [("a", Cell.num 2)], [("a", Cell.num 3)]] := by
  have h := tail_spec [[("a", Cell.num 1)], [("a", Cell.num 2)], [("a", Cell.num 3)]] 2
  exact ⟨h.1, h.2 (by decide) (by decide)⟩

/-! ## Claim C10: `transform` -/

/-- **C10 confirmed.**  For an existing column, `transform(column, fn)`
leaves every row whose cell is falsy — the absent marker, the number `0`,
`false`, or the empty string — completely unchanged (so `fn` is never
applied to it), writes `fn(cell)` into the column for every other row
while leaving that row's other columns unchanged, and preserves the row
count. -/
theorem transform_spec (df : DataFrame) (c : String) (fn : Cell → Cell)
    (h : c ∈ dfColumns df) :
    ∃ out : DataFrame, transform df c fn = Except.ok out ∧ out.length = df.length ∧
      ∀ (i : ℕ) (row : Row), df[i]? = some row →
        ∃ row' : Row, out[i]? = some row' ∧
          ((getCell row c = Cell.undef ∨ getCell row c = Cell.num 0 ∨
              getCell row c = Cell.bool false ∨ getCell row c = Cell.str "") →
            row' = row) ∧
          (¬(getCell row c = Cell.undef ∨ getCell row c = Cell.num 0 ∨
              getCell row c = Cell.bool false ∨ getCell row c = Cell.str "") →
            getCell row' c = fn (getCell row c) ∧
            ∀ c', c' ≠ c → getCell row' c' = getCell row c') := by
  have hfalsy : ∀ v : Cell, jsFalsy v = true ↔
      (v = Cell.undef ∨ v = Cell.num 0 ∨ v = Cell.bool false ∨
        v = Cell.str "") := by
    intro v
    cases v with
    | num q => simp [jsFalsy]
    | str s => simp [jsFalsy]
    | bool b => cases b <;> simp [jsFalsy]
    | undef => simp [jsFalsy]
    | struct keys => simp [jsFalsy]
  refine ⟨df.map (fun row =>
      if jsFalsy (getCell row c) then row
      else setCell row c (fn (getCell row c))), ?_, by simp, ?_⟩
  · unfold transform
    rw [if_neg (by simpa using h)]
  · intro i row hrow
    rw [List.getElem?_map, hrow]
    by_cases hf : jsFalsy (getCell row c) = true
    · refine ⟨row, by simp [hf], fun _ => rfl, fun hnot => absurd ((hfalsy _).mp hf) hnot⟩
    · refine ⟨setCell row c (fn (getCell row c)), by simp [hf], ?_, ?_⟩
      · intro hcases
        exact absurd (by rw [hfalsy]; exact hcases) hf
      · intro _
        exact ⟨getCell_setCell_same row c (fn (getCell row c)),
          fun c' hc' => getCell_setCell_ne row c c' (fn (getCell row c)) hc'⟩

theorem transform_spec_witness :
    ∃ out : DataFrame, transform [[("a", Cell.num 2)], [("a", Cell.num 0)]] "a"
          (fun v => v) = Except.ok out ∧
      out.length = [[("a", Cell.num 2)], [("a", Cell.num 0)]].length ∧
      ∀ (i : ℕ) (row : Row),
          [[("a", Cell.num 2)], [("a", Cell.num 0)]][i]? = some row →
        ∃ row' : Row, out[i]? = some row' ∧
          ((getCell row "a" = Cell.undef ∨ getCell row "a" = Cell.num 0 ∨
              getCell row "a" = Cell.bool false ∨ getCell row "a" = Cell.str "") →
            row' = row) ∧
          (¬(getCell row "a" = Cell.undef ∨ getCell row "a" = Cell.num 0 ∨
              getCell row "a" = Cell.bool false ∨ getCell row "a" = Cell.str "") →
            getCell row' "a" = (fun v => v) (getCell row "a") ∧
            ∀ c', c' ≠ "a" → getCell row' c' = getCell row c') :=
  transform_spec [[("a", Cell.num 2)], [("a", Cell.num 0)]] "a" (fun v => v)
    (by decide)

/-! ## Claim C6: `dedup` -/

/-- **C6 counterexample.**  Two rows that are structurally equal (same
single column, same value) but are distinct row objects (distinct ids).
The claim says `dedup` removes the second; `Array.prototype.indexOf`
compares objects by reference (`===`), so the code keeps both. -/
theorem dedup_keeps_structural_duplicates :
    dedup [(0, [("a", Cell.num 1)]), (1, [("a", Cell.num 1)])]
        = [(0, [("a", Cell.num 1)]), (1, [("a", Cell.num 1)])] ∧
    contents (dedup [(0, [("a", Cell.num 1)]), (1, [("a", Cell.num 1)])])
        = [[("a", Cell.num 1)], [("a", Cell.num 1)]] ∧
    (dedup [(0, [("a", Cell.num 1)]), (1, [("a", Cell.num 1)])]).length ≠ 1 := by
  decide

theorem keepFirstByRef_eq_filter (seen : List ORow) (d : List ORow) :
    keepFirstByRef seen d
      = (d.enum.filter (fun p =>
            decide (p.2 ∉ seen) && decide (jsIndexOf d p.2 = p.1))).map
          Prod.snd := by
  induction d generalizing seen with
  | nil => rfl
  | cons r rs ih =>
    rw [List.enum_cons, List.enumFrom_eq_map_enum, List.filter_cons,
      List.filter_map]
    by_cases hrs : r ∈ seen
    · have hC0 : (decide ((0, r).2 ∉ seen) &&
          decide (jsIndexOf (r :: rs) (0, r).2 = (0, r).1)) = false := by
        simp [hrs]
      rw [hC0]
      simp only [Bool.false_eq_true, if_false]
      have hcong : List.filter
            ((fun p => decide (p.2 ∉ seen) && decide (jsIndexOf (r :: rs) p.2 = p.1))
              ∘ Prod.map (· + 1) id) rs.enum
          = List.filter
              (fun p => decide (p.2 ∉ seen) && decide (jsIndexOf rs p.2 = p.1))
              rs.enum := by
        apply List.filter_congr
        intro q _
        obtain ⟨i, x⟩ := q
        by_cases hxr : r = x
        · subst hxr
          simp [Function.comp, jsIndexOf, hrs]
        · have harith : (1 + jsIndexOf rs x = i + 1) ↔ (jsIndexOf rs x = i) := by
            omega
          simp [Function.comp, jsIndexOf, hxr, Nat.add_comm, harith]
      rw [hcong, List.map_map]
      have hsnd : (Prod.snd ∘ Prod.map (· + 1) (id : ORow → ORow))
          = (Prod.snd : ℕ × ORow → ORow) := by
        funext p; cases p; rfl
      rw [hsnd]
      exact (show keepFirstByRef seen (r :: rs) = keepFirstByRef seen rs from by
        simp [keepFirstByRef, hrs]).trans (ih seen)
    · have hC0 : (decide ((0, r).2 ∉ seen) &&
          decide (jsIndexOf (r :: rs) (0, r).2 = (0, r).1)) = true := by
        simp [hrs, jsIndexOf]
      rw [hC0]
      simp only [if_true]
      have hcong : List.filter
            ((fun p => decide (p.2 ∉ seen) && decide (jsIndexOf (r :: rs) p.2 = p.1))
              ∘ Prod.map (· + 1) id) rs.enum
          = List.filter
              (fun p => decide (p.2 ∉ (r :: seen)) && decide (jsIndexOf rs p.2 = p.1))
              rs.enum := by
        apply List.filter_congr
        intro q _
        obtain ⟨i, x⟩ := q
        by_cases hxr : r = x
        · subst hxr
          simp [Function.comp, jsIndexOf]
        · simp only [Function.comp, Prod.map, id, jsIndexOf, if_neg hxr]
          have hxne : x ≠ r := fun e => hxr e.symm
          have harith : (1 + jsIndexOf rs x = i + 1) ↔ (jsIndexOf rs x = i) := by
            omega
          simp [List.mem_cons, hxne, Nat.add_comm, harith]
      rw [hcong, List.map_cons, List.map_map]
      have hsnd : (Prod.snd ∘ Prod.map (· + 1) (id : ORow → ORow))
          = (Prod.snd : ℕ × ORow → ORow) := by
        funext p; cases p; rfl
      rw [hsnd]
      rw [show keepFirstByRef seen (r :: rs) = r :: keepFirstByRef (r :: seen) rs
        from by simp [keepFirstByRef, hrs]]
      rw [ih (r :: seen)]

theorem nodup_jsIndexOf_enum (d : List ORow) (hd : d.Nodup) :
    ∀ p ∈ d.enum, jsIndexOf d p.2 = p.1 := by
  induction d with
  | nil => intro p hp; simp at hp
  | cons r rs ih =>
    intro p hp
    rw [List.enum_cons, List.enumFrom_eq_map_enum] at hp
    rcases List.mem_cons.mp hp with h0 | hmem
    · subst h0
      simp [jsIndexOf]
    · obtain ⟨q, hq, hfq⟩ := List.mem_map.mp hmem
      obtain ⟨i, x⟩ := q
      subst hfq
      have hx : x ∈ rs := by
        have hsnd := List.mem_map_of_mem Prod.snd hq
        rwa [List.enum_map_snd] at hsnd
      have hne : r ≠ x := fun e => (List.nodup_cons.mp hd).1 (e ▸ hx)
      show jsIndexOf (r :: rs) x = i + 1
      show (if r = x then 0 else jsIndexOf rs x + 1) = i + 1
      rw [if_neg hne, ih (List.nodup_cons.mp hd).2 (i, x) hq]

/-- **C6 amended.**  `dedup()` keeps the first occurrence of each row
**object** and removes later occurrences of the same object — i.e. it is
keep-first under reference equality — preserving the relative order of the
kept rows; rows that are merely structurally equal but distinct objects
are never removed, so a DataFrame whose row objects are pairwise distinct
comes back whole. -/
theorem dedup_amended_spec (d : List ORow) :
    dedup d = keepFirstByRef [] d ∧
    ((ids d).Nodup → dedup d = d) := by
  constructor
  · rw [keepFirstByRef_eq_filter]
    unfold dedup
    apply congrArg (List.map Prod.snd)
    apply List.filter_congr
    intro p _
    simp
  · intro hids
    have hd : d.Nodup := hids.of_map Prod.fst
    unfold dedup
    rw [List.filter_eq_self.mpr ?_]
    · exact List.enum_map_snd d
    · intro p hp
      simpa using nodup_jsIndexOf_enum d hd p hp

theorem dedup_amended_spec_witness :
    dedup [(0, [("a", Cell.num 1)]), (1, [("b", Cell.num 2)])]
        = keepFirstByRef [] [(0, [("a", Cell.num 1)]), (1, [("b", Cell.num 2)])] ∧
    dedup [(0, [("a", Cell.num 1)]), (1, [("b", Cell.num 2)])]
        = [(0, [("a", Cell.num 1)]), (1, [("b", Cell.num 2)])] := by
  have h := dedup_amended_spec [(0, [("a", Cell.num 1)]), (1, [("b", Cell.num 2)])]
  exact ⟨h.1, h.2 (by decide)⟩

/-! ## Claim C7: `copy` -/

theorem le_foldr_max (l : List ℕ) : ∀ x ∈ l, x ≤ l.foldr max 0 := by
  induction l with
  | nil => simp
  | cons a l ih =>
    intro x hx
    rcases List.mem_cons.mp hx with rfl | h
    · exact le_max_left _ _
    · exact le_trans (ih x h) (le_max_right _ _)

/-- **C7 confirmed.**  `copy()` yields a DataFrame with the same row
contents but over freshly allocated row objects: none of its objects is an
object of the source, and writing any cell through any of the copy's row
objects leaves the source exactly as it was (deep copy, no shared mutable
state). -/
theorem copy_spec (d : List ORow) :
    contents (copy d) = contents d ∧
    (∀ i ∈ ids (copy d), i ∉ ids d) ∧
    (∀ (i : ℕ) (c : String) (v : Cell), i ∈ ids (copy d) →
      writeCell i c v d = d) := by
  have hgt : ∀ i ∈ ids (copy d), maxId d < i := by
    intro i hi
    unfold ids copy at hi
    rw [List.map_map] at hi
    obtain ⟨p, _, hpi⟩ := List.mem_map.mp hi
    simp only [Function.comp] at hpi
    omega
  refine ⟨?_, ?_, ?_⟩
  · unfold contents copy
    rw [List.map_map]
    have hfun : (Prod.snd ∘ fun p : ℕ × ORow => (maxId d + 1 + p.1, p.2.2))
        = (Prod.snd ∘ (Prod.snd : ℕ × ORow → ORow)) := by
      funext p; rfl
    rw [hfun, ← List.map_map, List.enum_map_snd]
  · intro i hi hid
    exact absurd (le_foldr_max (ids d) i hid) (not_le.mpr (hgt i hi))
  · intro i c v hi
    unfold writeCell
    have hpt : ∀ r ∈ d, (if r.1 = i then (r.1, setCell r.2 c v) else r) = r := by
      intro r hr
      rw [if_neg]
      intro he
      have hmem : r.1 ∈ ids d := List.mem_map_of_mem Prod.fst hr
      have h1 : r.1 ≤ maxId d := le_foldr_max (ids d) r.1 hmem
      have h2 : maxId d < i := hgt i hi
      omega
    calc d.map (fun r => if r.1 = i then (r.1, setCell r.2 c v) else r)
        = d.map id := List.map_congr_left hpt
      _ = d := List.map_id d

theorem copy_spec_witness :
    contents (copy [(0, [("a", Cell.num 1)])])
        = contents [(0, [("a", Cell.num 1)])] ∧
    writeCell 1 "a" (Cell.num 5) [(0, [("a", Cell.num 1)])]
        = [(0, [("a", Cell.num 1)])] := by
  have h := copy_spec [(0, [("a", Cell.num 1)])]
  exact ⟨h.1, h.2.2 1 "a" (Cell.num 5) (by decide)⟩

/-! ## Claim C2: `quartiles` / `getPercentile` -/

/-- The claim's interpolation formula, stated over the sorted values with
total (default-`0`) indexing:
`v[⌊i⌋] + (v[⌈i⌉] − v[⌊i⌋]) · (i − ⌊i⌋)` at `i = p·(k−1)`. -/
def interpolate (p : ℚ) (v : List ℚ) : ℚ :=
  let index : ℚ := p * ((v.length : ℚ) - 1)
  v.getD ⌊index⌋.toNat 0 +
    (v.getD ⌈index⌉.toNat 0 - v.getD ⌊index⌋.toNat 0) * (index - (⌊index⌋ : ℚ))

theorem getPercentile_eq_interpolate (p : ℚ) (v : List ℚ) (hv : v ≠ [])
    (h0 : 0 ≤ p) (h1 : p ≤ 1) :
    getPercentile p v = some (interpolate p v) := by
  have hlen : 1 ≤ v.length := List.length_pos.mpr hv
  have hub : (0 : ℚ) ≤ (v.length : ℚ) - 1 := by
    have h : (1 : ℚ) ≤ (v.length : ℚ) := by exact_mod_cast hlen
    linarith
  have h0i : 0 ≤ p * ((v.length : ℚ) - 1) := mul_nonneg h0 hub
  have h1i : p * ((v.length : ℚ) - 1) ≤ (v.length : ℚ) - 1 := by
    calc p * ((v.length : ℚ) - 1) ≤ 1 * ((v.length : ℚ) - 1) :=
          mul_le_mul_of_nonneg_right h1 hub
      _ = (v.length : ℚ) - 1 := one_mul _
  have hfl : 0 ≤ ⌊p * ((v.length : ℚ) - 1)⌋ := Int.floor_nonneg.mpr h0i
  have hcl : ⌈p * ((v.length : ℚ) - 1)⌉ ≤ (v.length : ℤ) - 1 := by
    apply Int.ceil_le.mpr
    push_cast
    exact h1i
  have hflc : ⌊p * ((v.length : ℚ) - 1)⌋ ≤ ⌈p * ((v.length : ℚ) - 1)⌉ :=
    Int.floor_le_ceil _
  have hflt : ⌊p * ((v.length : ℚ) - 1)⌋.toNat < v.length := by omega
  have hclt : ⌈p * ((v.length : ℚ) - 1)⌉.toNat < v.length := by omega
  have e1 : jsGetElem v ⌊p * ((v.length : ℚ) - 1)⌋
      = some (v.getD ⌊p * ((v.length : ℚ) - 1)⌋.toNat 0) := by
    unfold jsGetElem
    rw [if_neg (by omega), List.getElem?_eq_getElem hflt,
      List.getD_eq_getElem v 0 hflt]
  have e2 : jsGetElem v ⌈p * ((v.length : ℚ) - 1)⌉
      = some (v.getD ⌈p * ((v.length : ℚ) - 1)⌉.toNat 0) := by
    unfold jsGetElem
    rw [if_neg (by omega), List.getElem?_eq_getElem hclt,
      List.getD_eq_getElem v 0 hclt]
  simp only [getPercentile, interpolate, e1, e2]

theorem interpolate_singleton (p x : ℚ) : interpolate p [x] = x := by
  unfold interpolate
  norm_num

/-- **C2 confirmed.**  For a column with a non-empty numeric subsequence,
`quartiles` returns exactly the 25th/50th/75th percentiles of the
ascending-sorted numeric subsequence under the linear-interpolation
formula `v[⌊i⌋] + (v[⌈i⌉] − v[⌊i⌋])·(i − ⌊i⌋)`, `i = p·(k−1)` (first
conjunct, with the sorted list exhibited as a sorted permutation of the
subsequence); a single-element subsequence makes every percentile that
element (second conjunct); and the result is invariant under any
permutation of the DataFrame's rows (third conjunct). -/
theorem quartiles_spec (df : DataFrame) (c : String)
    (h : numSeq df c ≠ []) :
    ((List.insertionSort (· ≤ ·) (numSeq df c)).Perm (numSeq df c) ∧
      (List.insertionSort (· ≤ ·) (numSeq df c)).Sorted (· ≤ ·) ∧
      quartiles df c
        = (some (interpolate (1/4) (List.insertionSort (· ≤ ·) (numSeq df c))),
           some (interpolate (1/2) (List.insertionSort (· ≤ ·) (numSeq df c))),
           some (interpolate (3/4) (List.insertionSort (· ≤ ·) (numSeq df c))))) ∧
    (∀ x : ℚ, numSeq df c = [x] →
      quartiles df c = (some x, some x, some x)) ∧
    (∀ df' : DataFrame, df'.Perm df → quartiles df' c = quartiles df c) := by
  have hsorted : ∀ l : List ℚ, (List.insertionSort (· ≤ ·) l).Sorted (· ≤ ·) :=
    fun l => List.sorted_insertionSort (· ≤ ·) l
  have hq : ∀ l : List ℚ, l ≠ [] →
      quartilesOf l
        = (some (interpolate (1/4) (List.insertionSort (· ≤ ·) l)),
           some (interpolate (1/2) (List.insertionSort (· ≤ ·) l)),
           some (interpolate (3/4) (List.insertionSort (· ≤ ·) l))) := by
    intro l hl
    have hne : List.insertionSort (· ≤ ·) l ≠ [] := by
      intro e
      have hlen := (List.perm_insertionSort (· ≤ ·) l).length_eq
      rw [e] at hlen
      have hl0 : l.length = 0 := by simpa using hlen.symm
      exact hl (List.eq_nil_of_length_eq_zero hl0)
    have g1 := getPercentile_eq_interpolate (1/4) _ hne (by norm_num) (by norm_num)
    have g2 := getPercentile_eq_interpolate (1/2) _ hne (by norm_num) (by norm_num)
    have g3 := getPercentile_eq_interpolate (3/4) _ hne (by norm_num) (by norm_num)
    simp only [quartilesOf, g1, g2, g3]
  refine ⟨⟨List.perm_insertionSort (· ≤ ·) (numSeq df c), hsorted _, hq _ h⟩,
    ?_, ?_⟩
  · intro x hx
    show quartilesOf (numSeq df c) = _
    rw [hx]
    have : List.insertionSort (· ≤ ·) [x] = [x] := rfl
    rw [hq [x] (by simp), this, interpolate_singleton, interpolate_singleton,
      interpolate_singleton]
  · intro df' hperm
    have hmap : (df'.map (fun r => getCell r c)).Perm
        (df.map (fun r => getCell r c)) := hperm.map _
    have hns : (numSeq df' c).Perm (numSeq df c) := hmap.filterMap cellNum
    have hsort : List.insertionSort (· ≤ ·) (numSeq df' c)
        = List.insertionSort (· ≤ ·) (numSeq df c) := by
      apply List.eq_of_perm_of_sorted (r := (· ≤ ·))
      · exact ((List.perm_insertionSort _ _).trans hns).trans
          (List.perm_insertionSort _ _).symm
      · exact hsorted _
      · exact hsorted _
    show quartilesOf (numSeq df' c) = quartilesOf (numSeq df c)
    simp only [quartilesOf, hsort]

theorem quartiles_spec_witness :
    ((List.insertionSort (· ≤ ·) (numSeq [[("a", Cell.num 3)], [("a", Cell.num 1)]] "a")).Perm
        (numSeq [[("a", Cell.num 3)], [("a", Cell.num 1)]] "a") ∧
      (List.insertionSort (· ≤ ·) (numSeq [[("a", Cell.num 3)], [("a", Cell.num 1)]] "a")).Sorted (· ≤ ·) ∧
      quartiles [[("a", Cell.num 3)], [("a", Cell.num 1)]] "a"
        = (some (interpolate (1/4) (List.insertionSort (· ≤ ·)
              (numSeq [[("a", Cell.num 3)], [("a", Cell.num 1)]] "a"))),
           some (interpolate (1/2) (List.insertionSort (· ≤ ·)
              (numSeq [[("a", Cell.num 3)], [("a", Cell.num 1)]] "a"))),
           some (interpolate (3/4) (List.insertionSort (· ≤ ·)
              (numSeq [[("a", Cell.num 3)], [("a", Cell.num 1)]] "a"))))) ∧
    (∀ x : ℚ, numSeq [[("a", Cell.num 3)], [("a", Cell.num 1)]] "a" = [x] →
      quartiles [[("a", Cell.num 3)], [("a", Cell.num 1)]] "a"
        = (some x, some x, some x)) ∧
    (∀ df' : DataFrame, df'.Perm [[("a", Cell.num 3)], [("a", Cell.num 1)]] →
      quartiles df' "a" = quartiles [[("a", Cell.num 3)], [("a", Cell.num 1)]] "a") :=
  quartiles_spec [[("a", Cell.num 3)], [("a", Cell.num 1)]] "a" (by decide)

/-! ## Claim C3: `var` vs `std` -/

theorem filterMap_cellNum_all_num (l : List Cell)
    (h : ∀ x ∈ l, x.isNum = true) :
    l = (l.filterMap cellNum).map Cell.num ∧
    (l.filterMap cellNum).length = l.length := by
  induction l with
  | nil => exact ⟨rfl, rfl⟩
  | cons x l ih =>
    obtain ⟨hx, hl⟩ := List.forall_mem_cons.mp h
    obtain ⟨q, rfl⟩ : ∃ q, x = Cell.num q := by
      cases x <;> simp [Cell.isNum] at hx
      exact ⟨_, rfl⟩
    obtain ⟨ih1, ih2⟩ := ih hl
    constructor
    · rw [List.filterMap_cons]
      simp only [cellNum, List.map_cons]
      exact congrArg (Cell.num q :: ·) ih1
    · rw [List.filterMap_cons]
      simp only [cellNum, List.length_cons, ih2]

theorem nanSumSq_map_num (vs : List ℚ) (m : ℚ) (acc : ℚ) :
    (vs.map Cell.num).foldl (fun acc val =>
        match acc, jsToNumber val with
        | some s, some q => some (s + (q - m) ^ 2)
        | _, _ => none) (some acc)
      = some (acc + (vs.map (fun v => (v - m) ^ 2)).sum) := by
  induction vs generalizing acc with
  | nil => simp
  | cons v vs ih =>
    rw [List.map_cons, List.foldl_cons]
    show (vs.map Cell.num).foldl _ (some (acc + (v - m) ^ 2)) = _
    rw [ih (acc + (v - m) ^ 2)]
    rw [List.map_cons, List.sum_cons]
    exact congrArg some (by ring)

theorem nanSumSq_eq_sum (vs : List ℚ) (m : ℚ) :
    nanSumSq (vs.map Cell.num) m
      = some ((vs.map (fun v => (v - m) ^ 2)).sum) := by
  unfold nanSumSq
  rw [nanSumSq_map_num vs m 0, zero_add]

theorem mem_keys_of_lookup_eq_some (r : Row) (c : String) (v : Cell)
    (h : r.lookup c = some v) : c ∈ r.map Prod.fst := by
  induction r with
  | nil => simp at h
  | cons p r ih =>
    obtain ⟨k, w⟩ := p
    rw [lookup_cons_key] at h
    by_cases hc : c = k
    · subst hc
      simp
    · rw [if_neg hc] at h
      simp [ih h]

/-- **C3 confirmed.**  For a column all of whose `n ≥ 2` cells are numeric,
`var()` reports for it the value `calculateVariance` (sum of squared
deviations over `n − 1`), `std` is the square root of the same sum over
`n`, and the reported variance equals `std² · n/(n−1)`: `var` uses the
sample divisor `n − 1` where `std` uses the population divisor `n`. -/
theorem var_std_relation (df : DataFrame) (c : String)
    (hall : ∀ r ∈ df, (getCell r c).isNum = true) (hn : 2 ≤ df.length) :
    ∃ (v : ℚ) (s : ℝ), calculateVariance df c = some v ∧ std df c = some s ∧
      (c, some v) ∈ varList df ∧
      (v : ℝ) = s ^ 2 * ((df.length : ℝ) / ((df.length : ℝ) - 1)) := by
  have hlist : ∀ x ∈ dfArray df c, x.isNum = true := by
    intro x hx
    obtain ⟨r, hr, rfl⟩ := List.mem_map.mp hx
    exact hall r hr
  have hfm : numSeq df c = (dfArray df c).filterMap cellNum := rfl
  obtain ⟨harr, hlen'⟩ := filterMap_cellNum_all_num (dfArray df c) hlist
  have hlenarr : (dfArray df c).length = df.length := by
    simp [dfArray]
  have hlen : (numSeq df c).length = df.length := by
    rw [hfm, hlen', hlenarr]
  have hne : ¬(numSeq df c).isEmpty = true := by
    rw [List.isEmpty_iff_length_eq_zero, hlen]
    omega
  have hmean : mean df c
      = some ((numSeq df c).sum / ((numSeq df c).length : ℚ)) := by
    unfold mean
    rw [if_neg hne]
  set m : ℚ := (numSeq df c).sum / ((numSeq df c).length : ℚ) with hm
  set S : ℚ := ((numSeq df c).map (fun v => (v - m) ^ 2)).sum with hS
  have harr' : dfArray df c = (numSeq df c).map Cell.num := by
    rw [hfm]
    exact harr
  have hsumsq : nanSumSq (dfArray df c) m = some S := by
    rw [harr', nanSumSq_eq_sum, hS]
  have hnotshort : ¬((dfArray df c).length ≤ 1) := by
    rw [hlenarr]
    omega
  have hvar : calculateVariance df c
      = some (S / (((dfArray df c).length : ℚ) - 1)) := by
    simp only [calculateVariance, hmean, hsumsq, hnotshort, if_false]
  have hstd : std df c = some (Real.sqrt ((S / ((numSeq df c).length : ℚ) : ℚ) : ℝ)) := by
    simp only [std, stdRadicand, hmean, hS]
  have hS0 : 0 ≤ S := by
    apply List.sum_nonneg
    intro x hx
    obtain ⟨q, _, rfl⟩ := List.mem_map.mp hx
    exact sq_nonneg _
  have hlenQ0 : (0 : ℚ) ≤ ((numSeq df c).length : ℚ) := by positivity
  refine ⟨S / (((dfArray df c).length : ℚ) - 1),
    Real.sqrt ((S / ((numSeq df c).length : ℚ) : ℚ) : ℝ), hvar, hstd, ?_, ?_⟩
  · have hcol : c ∈ dfColumns df := by
      cases df with
      | nil => simp at hn
      | cons r rest =>
        have hr := hall r (List.mem_cons_self r rest)
        unfold getCell at hr
        cases hlu : r.lookup c with
        | none => rw [hlu] at hr; simp [Cell.isNum] at hr
        | some v =>
          show c ∈ r.map Prod.fst
          exact mem_keys_of_lookup_eq_some r c v hlu
    have hany : df.any (fun row => Cell.isNum (getCell row c)) = true := by
      cases df with
      | nil => simp at hn
      | cons r rest =>
        rw [List.any_cons, hall r (List.mem_cons_self r rest)]
        rfl
    exact List.mem_map.mpr ⟨c, List.mem_filter.mpr ⟨hcol, hany⟩, by rw [hvar]⟩
  · have hsq : Real.sqrt ((S / ((numSeq df c).length : ℚ) : ℚ) : ℝ) ^ 2
        = ((S / ((numSeq df c).length : ℚ) : ℚ) : ℝ) :=
      Real.sq_sqrt (by
        apply Rat.cast_nonneg.mpr
        exact div_nonneg hS0 hlenQ0)
    rw [hsq]
    have h2 : (2 : ℝ) ≤ (df.length : ℝ) := by exact_mod_cast hn
    have hne0 : (df.length : ℝ) ≠ 0 := by linarith
    have hne1 : (df.length : ℝ) - 1 ≠ 0 := by
      intro e
      have : (df.length : ℝ) = 1 := by linarith
      linarith
    push_cast
    rw [hlenarr, hlen]
    field_simp

theorem var_std_relation_witness :
    ∃ (v : ℚ) (s : ℝ),
      calculateVariance [[("a", Cell.num 1)], [("a", Cell.num 3)]] "a" = some v ∧
      std [[("a", Cell.num 1)], [("a", Cell.num 3)]] "a" = some s ∧
      ("a", some v) ∈ varList [[("a", Cell.num 1)], [("a", Cell.num 3)]] ∧
      (v : ℝ) = s ^ 2 *
        (([[("a", Cell.num 1)], [("a", Cell.num 3)]].length : ℝ) /
          (([[("a", Cell.num 1)], [("a", Cell.num 3)]].length : ℝ) - 1)) :=
  var_std_relation [[("a", Cell.num 1)], [("a", Cell.num 3)]] "a"
    (by decide) (by decide)

end Berkelium
